import Mathlib

/-
Verification of the zip archiver component (`archive/zip_archiver.go`).

The archiver is shallowly embedded: the filesystem, the underlying zip codec
and the target file are modelled by an explicit environment `Env` that says
which collaborator calls succeed and what they return, and by an explicit
state `ZipState` recording what has been done to the target container.  Each
of the four public operations (`ArchiveContent`, `ArchiveFile`, `ArchiveDir`,
`ArchiveMultiple`) is translated from the Go source line by line as a pure
function `Env → … → Option Err × ZipState` (first component: the returned
error, `none` on success; second component: the final container state).

Strings are compared the way Go's `sort.Strings` compares them: byte-wise
lexicographic order on the UTF-8 encoding, which coincides with code-point
lexicographic order; the order is defined here on the character list of a
`String` so that it evaluates inside the kernel.
-/

namespace Archive

/-- Code-point lexicographic "less or equal" on character lists; this is the
order `sort.Strings` induces on valid UTF-8 strings. -/
def charsLe : List Char → List Char → Bool
  | [], _ => true
  | _ :: _, [] => false
  | a :: as, b :: bs =>
    if a.toNat < b.toNat then true
    else if b.toNat < a.toNat then false
    else charsLe as bs

/-- Code-point lexicographic strict "less than" on character lists. -/
def charsLt : List Char → List Char → Bool
  | [], [] => false
  | [], _ :: _ => true
  | _ :: _, [] => false
  | a :: as, b :: bs =>
    if a.toNat < b.toNat then true
    else if b.toNat < a.toNat then false
    else charsLt as bs

/-- Go's string "less or equal" (byte-wise lexicographic). -/
def strLe (a b : String) : Bool := charsLe a.data b.data

/-- Propositional form of `strLe`, used as the sorting relation. -/
def strLeP (a b : String) : Prop := strLe a b = true

/-- Go's string strict "less than", propositional form. -/
def strLtP (a b : String) : Prop := charsLt a.data b.data = true

instance : DecidableRel strLeP := fun a b =>
  inferInstanceAs (Decidable (strLe a b = true))

instance : DecidableRel strLtP := fun a b =>
  inferInstanceAs (Decidable (charsLt a.data b.data = true))

/-- Model of `sort.Strings`: sort ascending by byte-wise lexicographic order.
Insertion sort is used; for the duplicate-free key lists that arise from a Go
map it produces the unique sorted rearrangement, which is all the source's
sort is used for. -/
def sortStrings (l : List String) : List String := List.insertionSort strLeP l

/-- An error value from a collaborator (filesystem, zip codec, or target
file), carrying its message. -/
structure Err where
  msg : String
deriving DecidableEq, Repr

/-- The part of `os.FileInfo` the archiver consumes: `Name()`, `IsDir()`,
mode bits and modification time (the latter two as plain numbers). -/
structure FileInfo where
  name : String
  isDir : Bool
  mode : Nat
  mtime : Nat
deriving DecidableEq, Repr

/-- One callback invocation of `filepath.Walk`: the visited path, its
`os.FileInfo`, and the incoming walk error (`err` parameter). -/
structure WalkEvent where
  path : String
  info : FileInfo
  err : Option Err
deriving DecidableEq, Repr

/-- One entry of the zip container: name, decompressed content (bytes),
mode bits, modification time, and compression method. -/
structure Entry where
  name : String
  content : List Nat
  mode : Nat
  mtime : Nat
  method : Nat
deriving DecidableEq, Repr

/-- `zip.Deflate` (method 8). -/
def zipDeflate : Nat := 8

/-- State of the target location and the container writer during one call:
whether `os.Create` has run on the target (creating/truncating it), the
entries handed to the container so far, and how many times `close` ran. -/
structure ZipState where
  created : Bool
  entries : List Entry
  closeRuns : Nat
deriving DecidableEq, Repr

/-- State before `open`: target untouched. -/
def ZipState.initial : ZipState := ⟨false, [], 0⟩

/-- State just after a successful `open`: target created/truncated, no
entries yet. -/
def ZipState.opened : ZipState := ⟨true, [], 0⟩

/-- Effect of `zip.Writer.Create`/`CreateHeader` succeeding: the container
receives a new named entry (content still empty). -/
def ZipState.createEntry (s : ZipState) (name : String) (mode mtime method : Nat) : ZipState :=
  { s with entries := s.entries ++ [⟨name, [], mode, mtime, method⟩] }

/-- Append bytes to the most recently created entry (model of writing to the
`io.Writer` returned by `Create`/`CreateHeader`). -/
def appendToLast : List Entry → List Nat → List Entry
  | [], _ => []
  | [e], bs => [{ e with content := e.content ++ bs }]
  | e :: es, bs => e :: appendToLast es bs

/-- Effect of `f.Write(content)` succeeding on the current entry stream. -/
def ZipState.writeLast (s : ZipState) (bs : List Nat) : ZipState :=
  { s with entries := appendToLast s.entries bs }

/-- Environment: the behaviour of the out-of-scope collaborators during one
archiving call — what `os.Stat`, `ioutil.ReadFile` and `filepath.Walk`
return, and which target-file / zip-codec operations fail. -/
structure Env where
  statRes : String → Option FileInfo
  readRes : String → Except Err (List Nat)
  walkEvents : String → List WalkEvent
  openErr : Option Err
  headerErr : String → Option Err
  createEntryErr : String → Option Err
  writeEntryErr : String → Option Err
  closeWriterErr : Option Err
  closeFileErr : Option Err

/-- The same environment with the close-time collaborator errors replaced. -/
def setCloseErrs (env : Env) (cw cf : Option Err) : Env :=
  { env with closeWriterErr := cw, closeFileErr := cf }

/-- Translation of `zipArchiver.close`: `a.writer.Close()` and
`a.filewriter.Close()` are both attempted and their errors discarded
(`_ = …` in the source); nothing of them reaches the caller. -/
def zipArchiver.close (env : Env) (s : ZipState) : ZipState :=
  let _ := env.closeWriterErr
  let _ := env.closeFileErr
  { s with closeRuns := s.closeRuns + 1 }

/-- Translation of `zipArchiver.open`: `os.Create(a.filepath)` either fails
(target untouched in the model) or creates/truncates the target and wraps it
in a fresh `zip.Writer`. -/
def zipArchiver.open (env : Env) : Except Err ZipState :=
  match env.openErr with
  | some e => .error e
  | none => .ok ZipState.opened

/-- Translation of `zipArchiver.ArchiveContent`. -/
def zipArchiver.ArchiveContent (env : Env) (content : List Nat) (infilename : String) :
    Option Err × ZipState :=
  match zipArchiver.open env with
  | .error e => (some e, ZipState.initial)
  | .ok s =>
    match env.createEntryErr infilename with
    | some e => (some e, zipArchiver.close env s)
    | none =>
      let s := s.createEntry infilename 0 0 zipDeflate
      match env.writeEntryErr infilename with
      | some e => (some e, zipArchiver.close env s)
      | none => (none, zipArchiver.close env (s.writeLast content))

/-- Modelled from the spec: `assertValidFile` is code of this repository that
is not part of the provided source (only its caller is); per the spec the
path must resolve to an existing regular file — absent paths, stat errors and
directories are validation errors, signalled before the container is
opened. -/
def assertValidFile (env : Env) (p : String) : Except Err FileInfo :=
  match env.statRes p with
  | none => .error ⟨"could not archive missing file"⟩
  | some fi => if fi.isDir then .error ⟨"not a regular file"⟩ else .ok fi

/-- Modelled from the spec: `assertValidDir` is code of this repository that
is not part of the provided source (only its caller is); per the spec the
root must resolve to an existing directory. -/
def assertValidDir (env : Env) (p : String) : Except Err FileInfo :=
  match env.statRes p with
  | none => .error ⟨"could not archive missing directory"⟩
  | some fi => if fi.isDir then .ok fi else .error ⟨"not a directory"⟩

/-- Translation of `zipArchiver.ArchiveFile`: validate, read the whole file,
only then open the target; build a header from the stat result with
`fh.Name = fi.Name()` and `fh.Method = zip.Deflate`; write one entry. -/
def zipArchiver.ArchiveFile (env : Env) (infilename : String) : Option Err × ZipState :=
  match assertValidFile env infilename with
  | .error e => (some e, ZipState.initial)
  | .ok fi =>
    match env.readRes infilename with
    | .error e => (some e, ZipState.initial)
    | .ok content =>
      match zipArchiver.open env with
      | .error e => (some e, ZipState.initial)
      | .ok s =>
        match env.headerErr infilename with
        | some e => (some ⟨"error creating file header: " ++ e.msg⟩, zipArchiver.close env s)
        | none =>
          match env.createEntryErr fi.name with
          | some e => (some ⟨"error creating file inside archive: " ++ e.msg⟩,
                       zipArchiver.close env s)
          | none =>
            let s := s.createEntry fi.name fi.mode fi.mtime zipDeflate
            match env.writeEntryErr fi.name with
            | some e => (some e, zipArchiver.close env s)
            | none => (none, zipArchiver.close env (s.writeLast content))

/-- Model of `filepath.Rel(root, path)` for the shapes a walk produces: the
root itself relativizes to `"."`; a path strictly below the root (i.e. with
`root ++ "/"` in front) relativizes to the remainder; anything else is a
relativization error. -/
def relPath (root p : String) : Option String :=
  if root = p then some "."
  else if (root.data ++ ['/']) <+: p.data then
    some (String.mk (p.data.drop (root.data.length + 1)))
  else none

/-- The relative name of a path strictly below `root`. -/
def mkRel (root p : String) : String := String.mk (p.data.drop (root.data.length + 1))

/-- Translation of the walk callback inside `zipArchiver.ArchiveDir`, in
source order: the `info.IsDir()` check comes first (before the incoming
error is examined), then `err`, then `filepath.Rel`, `zip.FileInfoHeader`,
`CreateHeader` (with `fh.Name = relname`, `fh.Method = zip.Deflate`),
`ioutil.ReadFile`, and `f.Write`. -/
def archiveDirVisit (env : Env) (indirname : String) (s : ZipState) (ev : WalkEvent) :
    Option Err × ZipState :=
  if ev.info.isDir then (none, s)
  else
    match ev.err with
    | some e => (some e, s)
    | none =>
      match relPath indirname ev.path with
      | none => (some ⟨"error relativizing file for archival"⟩, s)
      | some relname =>
        match env.headerErr ev.path with
        | some e => (some ⟨"error creating file header: " ++ e.msg⟩, s)
        | none =>
          match env.createEntryErr relname with
          | some e => (some ⟨"error creating file inside archive: " ++ e.msg⟩, s)
          | none =>
            let s := s.createEntry relname ev.info.mode ev.info.mtime zipDeflate
            match env.readRes ev.path with
            | .error _ => (some ⟨"error reading file for archival"⟩, s)
            | .ok content =>
              match env.writeEntryErr relname with
              | some e => (some e, s)
              | none => (none, s.writeLast content)

/-- Model of `filepath.Walk`: invoke the callback on each event in traversal
order, stopping at (and returning) the first error the callback returns. -/
def runWalk (env : Env) (indirname : String) : List WalkEvent → ZipState → Option Err × ZipState
  | [], s => (none, s)
  | ev :: evs, s =>
    match archiveDirVisit env indirname s ev with
    | (some e, s') => (some e, s')
    | (none, s') => runWalk env indirname evs s'

/-- Translation of `zipArchiver.ArchiveDir`: validate the root, open the
target, walk the tree with the callback, close on every exit path. -/
def zipArchiver.ArchiveDir (env : Env) (indirname : String) : Option Err × ZipState :=
  match assertValidDir env indirname with
  | .error e => (some e, ZipState.initial)
  | .ok _ =>
    match zipArchiver.open env with
    | .error e => (some e, ZipState.initial)
    | .ok s =>
      match runWalk env indirname (env.walkEvents indirname) s with
      | (r, s') => (r, zipArchiver.close env s')

/-- Map indexing `content[filename]` for the key list drawn from the map,
modelled on an association list. -/
def lookupContent (m : List (String × List Nat)) (k : String) : List Nat :=
  match m with
  | [] => []
  | (k', v) :: rest => if k' = k then v else lookupContent rest k

/-- Translation of the write loop of `zipArchiver.ArchiveMultiple`: for each
filename in order, `a.writer.Create(filename)` then write
`content[filename]`, stopping at the first error. -/
def writeAll (env : Env) (m : List (String × List Nat)) :
    List String → ZipState → Option Err × ZipState
  | [], s => (none, s)
  | k :: ks, s =>
    match env.createEntryErr k with
    | some e => (some e, s)
    | none =>
      let s := s.createEntry k 0 0 zipDeflate
      match env.writeEntryErr k with
      | some e => (some e, s)
      | none => writeAll env m ks (s.writeLast (lookupContent m k))

/-- Translation of `zipArchiver.ArchiveMultiple`: open, collect the map's
keys, sort them (`sort.Strings`), write the entries in sorted key order,
close on every exit path.  The map is modelled as an association list whose
order stands for the map's (arbitrary) iteration order. -/
def zipArchiver.ArchiveMultiple (env : Env) (content : List (String × List Nat)) :
    Option Err × ZipState :=
  match zipArchiver.open env with
  | .error e => (some e, ZipState.initial)
  | .ok s =>
    match writeAll env content (sortStrings (content.map Prod.fst)) s with
    | (r, s') => (r, zipArchiver.close env s')

/-- Go's `filepath.Base` for slash-free-tail paths: the part after the last
separator. -/
def baseName (p : String) : String :=
  String.mk ((p.data.reverse.takeWhile (fun c => c != '/')).reverse)

/-- The bytes a successful read of `p` yields (`[]` when the read fails);
used to state the `ArchiveDir` characterization. -/
def readDefault (env : Env) (p : String) : List Nat :=
  match env.readRes p with
  | .ok c => c
  | .error _ => []

instance : DecidableEq (Except Err (List Nat))
  | .ok a, .ok b =>
    if h : a = b then isTrue (by rw [h]) else isFalse (by intro hh; cases hh; exact h rfl)
  | .ok _, .error _ => isFalse (by intro h; cases h)
  | .error _, .ok _ => isFalse (by intro h; cases h)
  | .error a, .error b =>
    if h : a = b then isTrue (by rw [h]) else isFalse (by intro hh; cases hh; exact h rfl)

/-- A walk event is benign for archiving: if it is a regular file (not a
directory), it carries no walk error, its path lies strictly below the root,
and the header, entry-creation, read and write collaborator calls for it all
succeed. -/
def goodFileEvent (env : Env) (root : String) (ev : WalkEvent) : Prop :=
  ev.info.isDir = false →
    (ev.err = none ∧ (root.data ++ ['/']) <+: ev.path.data ∧
     env.headerErr ev.path = none ∧ env.createEntryErr (mkRel root ev.path) = none ∧
     env.readRes ev.path = .ok (readDefault env ev.path) ∧
     env.writeEntryErr (mkRel root ev.path) = none)

instance decGoodFileEvent (env : Env) (root : String) (ev : WalkEvent) :
    Decidable (goodFileEvent env root ev) := by
  unfold goodFileEvent; infer_instance

/-- The entry list a walk is expected to produce: one entry per non-directory
event, named by the path relative to the root, with the file's bytes and
stat metadata and the deflate method. -/
def dirEntriesOf (env : Env) (root : String) (evs : List WalkEvent) : List Entry :=
  (evs.filter fun ev => !ev.info.isDir).map fun ev =>
    ⟨mkRel root ev.path, readDefault env ev.path, ev.info.mode, ev.info.mtime, zipDeflate⟩

/-- The relative entry name a walk event can contribute (none for
directories or relativization failures). -/
def relNameOf (root : String) (ev : WalkEvent) : Option String :=
  if ev.info.isDir then none else relPath root ev.path

/-- An environment in which every collaborator call succeeds, the filesystem
is empty and walks produce no events. -/
def envPlain : Env where
  statRes := fun _ => none
  readRes := fun _ => .error ⟨"file does not exist"⟩
  walkEvents := fun _ => []
  openErr := none
  headerErr := fun _ => none
  createEntryErr := fun _ => none
  writeEntryErr := fun _ => none
  closeWriterErr := none
  closeFileErr := none

/-- The demonstration mapping of the spec, in one insertion order:
`{"b.txt": "2", "a.txt": "1"}` (byte 50 is `"2"`, byte 49 is `"1"`). -/
def demoMap : List (String × List Nat) := [("b.txt", [50]), ("a.txt", [49])]

/-- The demonstration mapping in the opposite insertion order. -/
def demoMapRev : List (String × List Nat) := [("a.txt", [49]), ("b.txt", [50])]

/-- An environment holding one regular file `d/f.txt` with content `"hi"`. -/
def envOneFile : Env :=
  { envPlain with
    statRes := fun p => if p = "d/f.txt" then some ⟨"f.txt", false, 420, 100⟩ else none
    readRes := fun p => if p = "d/f.txt" then .ok [104, 105] else .error ⟨"file does not exist"⟩ }

/-- An environment holding one regular file `d/f.txt` that stats fine but
fails to read. -/
def envReadFail : Env :=
  { envPlain with
    statRes := fun p => if p = "d/f.txt" then some ⟨"f.txt", false, 420, 100⟩ else none
    readRes := fun _ => .error ⟨"input/output error"⟩ }

/-- An environment holding the directory tree of the spec's scenario:
root `d` containing `d/sub/x.txt` and `d/y.txt`. -/
def envTree : Env :=
  { envPlain with
    statRes := fun p => if p = "d" then some ⟨"d", true, 493, 0⟩ else none
    readRes := fun p =>
      if p = "d/sub/x.txt" then .ok [120]
      else if p = "d/y.txt" then .ok [121]
      else .error ⟨"file does not exist"⟩
    walkEvents := fun p =>
      if p = "d" then
        [⟨"d", ⟨"d", true, 493, 0⟩, none⟩,
         ⟨"d/sub", ⟨"sub", true, 493, 0⟩, none⟩,
         ⟨"d/sub/x.txt", ⟨"x.txt", false, 420, 5⟩, none⟩,
         ⟨"d/y.txt", ⟨"y.txt", false, 420, 6⟩, none⟩]
      else [] }

/-- An environment whose walk reports a traversal error for the directory
`d/sub` (as `filepath.Walk` does when a directory cannot be listed). -/
def envDirWalkErr : Env :=
  { envPlain with
    statRes := fun p => if p = "d" then some ⟨"d", true, 493, 0⟩ else none
    walkEvents := fun p =>
      if p = "d" then
        [⟨"d", ⟨"d", true, 493, 0⟩, none⟩,
         ⟨"d/sub", ⟨"sub", true, 493, 0⟩, some ⟨"permission denied"⟩⟩]
      else [] }

theorem char_eq_of_toNat_eq {a b : Char} (h : a.toNat = b.toNat) : a = b := by
  apply Char.ext
  exact UInt32.toNat.inj h

theorem charsLe_total : ∀ as bs : List Char, charsLe as bs = true ∨ charsLe bs as = true
  | [], [] => Or.inl rfl
  | [], _ :: _ => Or.inl rfl
  | _ :: _, [] => Or.inr rfl
  | a :: as, b :: bs => by
    simp only [charsLe]
    rcases Nat.lt_trichotomy a.toNat b.toNat with h | h | h
    · left; simp [h]
    · have h1 : ¬ a.toNat < b.toNat := by omega
      have h2 : ¬ b.toNat < a.toNat := by omega
      simpa [h1, h2] using charsLe_total as bs
    · right; simp [h]

theorem charsLe_trans : ∀ as bs cs : List Char,
    charsLe as bs = true → charsLe bs cs = true → charsLe as cs = true
  | [], _, _, _, _ => rfl
  | _ :: _, [], _, h₁, _ => by simp [charsLe] at h₁
  | _ :: _, _ :: _, [], _, h₂ => by simp [charsLe] at h₂
  | a :: as, b :: bs, c :: cs, h₁, h₂ => by
    simp only [charsLe] at h₁ h₂ ⊢
    rcases Nat.lt_trichotomy a.toNat b.toNat with hab | hab | hab
    · rcases Nat.lt_trichotomy b.toNat c.toNat with hbc | hbc | hbc
      · have hac : a.toNat < c.toNat := lt_trans hab hbc
        simp [hac]
      · have hac : a.toNat < c.toNat := hbc ▸ hab
        simp [hac]
      · have h3 : ¬ b.toNat < c.toNat := by omega
        simp [h3, hbc] at h₂
    · rcases Nat.lt_trichotomy b.toNat c.toNat with hbc | hbc | hbc
      · have hac : a.toNat < c.toNat := hab ▸ hbc
        simp [hac]
      · have h1 : ¬ a.toNat < b.toNat := by omega
        have h2 : ¬ b.toNat < a.toNat := by omega
        have h3 : ¬ b.toNat < c.toNat := by omega
        have h4 : ¬ c.toNat < b.toNat := by omega
        have h5 : ¬ a.toNat < c.toNat := by omega
        have h6 : ¬ c.toNat < a.toNat := by omega
        simp only [h1, h2, if_false] at h₁
        simp only [h3, h4, if_false] at h₂
        simp only [h5, h6, if_false]
        exact charsLe_trans as bs cs h₁ h₂
      · have h3 : ¬ b.toNat < c.toNat := by omega
        simp [h3, hbc] at h₂
    · have h1 : ¬ a.toNat < b.toNat := by omega
      simp [h1, hab] at h₁

theorem charsLe_antisymm : ∀ as bs : List Char,
    charsLe as bs = true → charsLe bs as = true → as = bs
  | [], [], _, _ => rfl
  | [], _ :: _, _, h₂ => by simp [charsLe] at h₂
  | _ :: _, [], h₁, _ => by simp [charsLe] at h₁
  | a :: as, b :: bs, h₁, h₂ => by
    simp only [charsLe] at h₁ h₂
    rcases Nat.lt_trichotomy a.toNat b.toNat with h | h | h
    · have h1 : ¬ b.toNat < a.toNat := by omega
      simp [h, h1] at h₂
    · obtain rfl : a = b := char_eq_of_toNat_eq h
      have h1 : ¬ a.toNat < a.toNat := by omega
      simp only [h1, if_false] at h₁ h₂
      rw [charsLe_antisymm as bs h₁ h₂]
    · have h1 : ¬ a.toNat < b.toNat := by omega
      simp [h, h1] at h₁

theorem charsLt_of_le_of_ne : ∀ as bs : List Char,
    charsLe as bs = true → as ≠ bs → charsLt as bs = true
  | [], [], _, hne => absurd rfl hne
  | [], _ :: _, _, _ => rfl
  | _ :: _, [], h₁, _ => by simp [charsLe] at h₁
  | a :: as, b :: bs, h₁, hne => by
    simp only [charsLe] at h₁
    simp only [charsLt]
    rcases Nat.lt_trichotomy a.toNat b.toNat with h | h | h
    · simp [h]
    · obtain rfl : a = b := char_eq_of_toNat_eq h
      have h1 : ¬ a.toNat < a.toNat := by omega
      simp only [h1, if_false] at h₁ ⊢
      exact charsLt_of_le_of_ne as bs h₁ fun hh => hne (by rw [hh])
    · have h1 : ¬ a.toNat < b.toNat := by omega
      simp [h, h1] at h₁

instance : IsTrans String strLeP :=
  ⟨fun a b c => charsLe_trans a.data b.data c.data⟩

instance : IsTotal String strLeP :=
  ⟨fun a b => charsLe_total a.data b.data⟩

instance : IsAntisymm String strLeP :=
  ⟨fun a b h₁ h₂ => String.ext (charsLe_antisymm a.data b.data h₁ h₂)⟩

theorem strLtP_of_leP_of_ne {a b : String} (h : strLeP a b) (hne : a ≠ b) : strLtP a b :=
  charsLt_of_le_of_ne a.data b.data h fun hd => hne (String.ext hd)

theorem sorted_strLtP {l : List String} (hs : List.Sorted strLeP l) (hn : l.Nodup) :
    List.Sorted strLtP l :=
  (hs.and hn).imp fun h => strLtP_of_leP_of_ne h.1 h.2

theorem sortStrings_perm (l : List String) : (sortStrings l).Perm l :=
  List.perm_insertionSort strLeP l

theorem sortStrings_sorted (l : List String) : List.Sorted strLeP (sortStrings l) :=
  List.sorted_insertionSort strLeP l

@[simp] theorem close_entries (env : Env) (s : ZipState) :
    (zipArchiver.close env s).entries = s.entries := rfl

@[simp] theorem close_created (env : Env) (s : ZipState) :
    (zipArchiver.close env s).created = s.created := rfl

@[simp] theorem close_closeRuns (env : Env) (s : ZipState) :
    (zipArchiver.close env s).closeRuns = s.closeRuns + 1 := rfl

@[simp] theorem createEntry_created (s : ZipState) (n : String) (mo mt me : Nat) :
    (s.createEntry n mo mt me).created = s.created := rfl

@[simp] theorem createEntry_closeRuns (s : ZipState) (n : String) (mo mt me : Nat) :
    (s.createEntry n mo mt me).closeRuns = s.closeRuns := rfl

@[simp] theorem writeLast_created (s : ZipState) (bs : List Nat) :
    (s.writeLast bs).created = s.created := rfl

@[simp] theorem writeLast_closeRuns (s : ZipState) (bs : List Nat) :
    (s.writeLast bs).closeRuns = s.closeRuns := rfl

theorem appendToLast_append : ∀ (es : List Entry) (e : Entry) (bs : List Nat),
    appendToLast (es ++ [e]) bs = es ++ [{ e with content := e.content ++ bs }]
  | [], _, _ => rfl
  | a :: es, e, bs => by
    cases es with
    | nil => rfl
    | cons b es' =>
      show a :: appendToLast ((b :: es') ++ [e]) bs = a :: ((b :: es') ++ _)
      rw [appendToLast_append]

theorem appendToLast_map_name : ∀ (es : List Entry) (bs : List Nat),
    (appendToLast es bs).map Entry.name = es.map Entry.name
  | [], _ => rfl
  | [_], _ => rfl
  | e :: f :: es, bs => by
    show e.name :: (appendToLast (f :: es) bs).map Entry.name = _
    rw [appendToLast_map_name (f :: es) bs]; rfl

theorem createEntry_writeLast_entries (s : ZipState) (n : String) (mo mt me : Nat)
    (bs : List Nat) :
    ((s.createEntry n mo mt me).writeLast bs).entries = s.entries ++ [⟨n, bs, mo, mt, me⟩] := by
  show appendToLast (s.entries ++ [⟨n, [], mo, mt, me⟩]) bs = _
  rw [appendToLast_append]
  rfl

theorem lookupContent_perm (k : String) :
    ∀ {m₁ m₂ : List (String × List Nat)}, m₁.Perm m₂ → (m₁.map Prod.fst).Nodup →
      lookupContent m₁ k = lookupContent m₂ k := by
  intro m₁ m₂ h
  induction h with
  | nil => intro _; rfl
  | cons x h ih =>
    intro hnd
    obtain ⟨x1, x2⟩ := x
    simp only [List.map_cons, List.nodup_cons] at hnd
    simp only [lookupContent]
    rw [ih hnd.2]
  | swap x y l =>
    intro hnd
    obtain ⟨x1, x2⟩ := x
    obtain ⟨y1, y2⟩ := y
    simp only [List.map_cons, List.nodup_cons, List.mem_cons] at hnd
    have hne : y1 ≠ x1 := fun hh => hnd.1 (Or.inl hh)
    simp only [lookupContent]
    by_cases hy : y1 = k
    · by_cases hx : x1 = k
      · exact absurd (hy.trans hx.symm) hne
      · simp [hy, hx]
    · simp [hy]
  | trans h₁ h₂ ih₁ ih₂ =>
    intro hnd
    have hnd₂ := ((h₁.map Prod.fst).nodup_iff).mp hnd
    rw [ih₁ hnd, ih₂ hnd₂]

theorem writeAll_congr (env : Env) {m₁ m₂ : List (String × List Nat)}
    (h : ∀ k, lookupContent m₁ k = lookupContent m₂ k) :
    ∀ (ks : List String) (s : ZipState), writeAll env m₁ ks s = writeAll env m₂ ks s
  | [], _ => rfl
  | k :: ks, s => by
    simp only [writeAll]
    cases env.createEntryErr k with
    | some e => rfl
    | none =>
      cases env.writeEntryErr k with
      | some e => rfl
      | none =>
        rw [h k]
        exact writeAll_congr env h ks _

theorem writeAll_ok (env : Env) (m : List (String × List Nat)) :
    ∀ (ks : List String) (s s' : ZipState), writeAll env m ks s = (none, s') →
      s' = { s with entries :=
        s.entries ++ ks.map fun k => ⟨k, lookupContent m k, 0, 0, zipDeflate⟩ }
  | [], s, s', h => by
    simp only [writeAll, Prod.mk.injEq] at h
    rw [← h.2]
    cases s
    simp
  | k :: ks, s, s', h => by
    simp only [writeAll] at h
    cases hc : env.createEntryErr k with
    | some e => rw [hc] at h; simp at h
    | none =>
      rw [hc] at h
      cases hw : env.writeEntryErr k with
      | some e => rw [hw] at h; simp at h
      | none =>
        rw [hw] at h
        have := writeAll_ok env m ks _ s' h
        rw [this]
        simp only [ZipState.writeLast, ZipState.createEntry]
        rw [appendToLast_append]
        simp [List.append_assoc]

theorem writeAll_names (env : Env) (m : List (String × List Nat)) :
    ∀ (ks : List String) (s : ZipState), ∃ l,
      ((writeAll env m ks s).2.entries.map Entry.name = s.entries.map Entry.name ++ l) ∧
      l.Sublist ks
  | [], s => ⟨[], by simp [writeAll], List.nil_sublist _⟩
  | k :: ks, s => by
    simp only [writeAll]
    cases hc : env.createEntryErr k with
    | some e => exact ⟨[], by simp, List.nil_sublist _⟩
    | none =>
      cases hw : env.writeEntryErr k with
      | some e =>
        refine ⟨[k], ?_, List.cons_sublist_cons.mpr (List.nil_sublist ks)⟩
        simp [ZipState.createEntry]
      | none =>
        obtain ⟨l, hl, hsub⟩ :=
          writeAll_names env m ks ((s.createEntry k 0 0 zipDeflate).writeLast (lookupContent m k))
        refine ⟨k :: l, ?_, List.cons_sublist_cons.mpr hsub⟩
        rw [hl]
        simp only [ZipState.writeLast, ZipState.createEntry, appendToLast_map_name]
        simp [List.append_assoc]

theorem writeAll_created_closeRuns (env : Env) (m : List (String × List Nat)) :
    ∀ (ks : List String) (s : ZipState),
      (writeAll env m ks s).2.created = s.created ∧
      (writeAll env m ks s).2.closeRuns = s.closeRuns
  | [], _ => ⟨rfl, rfl⟩
  | k :: ks, s => by
    simp only [writeAll]
    cases env.createEntryErr k with
    | some e => exact ⟨rfl, rfl⟩
    | none =>
      cases env.writeEntryErr k with
      | some e => exact ⟨rfl, rfl⟩
      | none => exact writeAll_created_closeRuns env m ks _

theorem relPath_of_under {root p : String} (h : (root.data ++ ['/']) <+: p.data) :
    relPath root p = some (mkRel root p) := by
  have hne : root ≠ p := by
    intro he
    subst he
    have hlen := h.length_le
    simp at hlen
  unfold relPath mkRel
  rw [if_neg hne, if_pos h]

theorem mkRel_inj {root a b : String} (ha : (root.data ++ ['/']) <+: a.data)
    (hb : (root.data ++ ['/']) <+: b.data) (h : mkRel root a = mkRel root b) : a = b := by
  obtain ⟨ta, hta⟩ := ha
  obtain ⟨tb, htb⟩ := hb
  have hlen : root.data.length + 1 = (root.data ++ ['/']).length := by simp
  unfold mkRel at h
  rw [← hta, ← htb, hlen, List.drop_left, List.drop_left] at h
  have hd : ta = tb := congrArg String.data h
  apply String.ext
  rw [← hta, ← htb, hd]

theorem archiveDirVisit_created_closeRuns (env : Env) (root : String) (s : ZipState)
    (ev : WalkEvent) :
    (archiveDirVisit env root s ev).2.created = s.created ∧
    (archiveDirVisit env root s ev).2.closeRuns = s.closeRuns := by
  unfold archiveDirVisit
  (repeat' split) <;> exact ⟨rfl, rfl⟩

theorem runWalk_created_closeRuns (env : Env) (root : String) :
    ∀ (evs : List WalkEvent) (s : ZipState),
      (runWalk env root evs s).2.created = s.created ∧
      (runWalk env root evs s).2.closeRuns = s.closeRuns
  | [], _ => ⟨rfl, rfl⟩
  | ev :: evs, s => by
    simp only [runWalk]
    have hinv := archiveDirVisit_created_closeRuns env root s ev
    rcases hv : archiveDirVisit env root s ev with ⟨r, s'⟩
    rw [hv] at hinv
    cases r with
    | some e => exact hinv
    | none =>
      have hrec := runWalk_created_closeRuns env root evs s'
      exact ⟨hrec.1.trans hinv.1, hrec.2.trans hinv.2⟩

theorem archiveDirVisit_good (env : Env) (root : String) (s : ZipState) (ev : WalkEvent)
    (hgood : goodFileEvent env root ev) :
    archiveDirVisit env root s ev =
      if ev.info.isDir then (none, s)
      else (none, (s.createEntry (mkRel root ev.path) ev.info.mode ev.info.mtime
        zipDeflate).writeLast (readDefault env ev.path)) := by
  cases hd : ev.info.isDir
  case true => simp [archiveDirVisit, hd]
  case false =>
    obtain ⟨herr, hpre, hheader, hcreate, hread, hwrite⟩ := hgood hd
    simp only [archiveDirVisit, hd, Bool.false_eq_true, if_false, herr,
      relPath_of_under hpre, hheader, hcreate, hread, hwrite]

theorem runWalk_good (env : Env) (root : String) :
    ∀ (evs : List WalkEvent) (s : ZipState),
      (∀ ev ∈ evs, goodFileEvent env root ev) →
      runWalk env root evs s = (none, { s with entries := s.entries ++ dirEntriesOf env root evs })
  | [], s, _ => by simp [runWalk, dirEntriesOf]
  | ev :: evs, s, h => by
    have hev := h ev (List.mem_cons_self ev evs)
    have hrest : ∀ e ∈ evs, goodFileEvent env root e := fun e he => h e (List.mem_cons_of_mem _ he)
    cases hd : ev.info.isDir
    case true =>
      simp only [runWalk, archiveDirVisit_good env root s ev hev, hd, if_true]
      rw [runWalk_good env root evs s hrest]
      simp [dirEntriesOf, hd]
    case false =>
      simp only [runWalk, archiveDirVisit_good env root s ev hev, hd,
        Bool.false_eq_true, if_false]
      rw [runWalk_good env root evs _ hrest]
      simp only [dirEntriesOf, List.filter_cons, hd, Bool.not_false, if_true, List.map_cons]
      simp only [ZipState.writeLast, ZipState.createEntry]
      rw [appendToLast_append]
      simp [List.append_assoc]

theorem runWalk_names (env : Env) (root : String) :
    ∀ (evs : List WalkEvent) (s : ZipState), ∃ l,
      ((runWalk env root evs s).2.entries.map Entry.name = s.entries.map Entry.name ++ l) ∧
      l.Sublist (evs.filterMap (relNameOf root))
  | [], s => ⟨[], by simp [runWalk], List.nil_sublist _⟩
  | ev :: evs, s => by
    cases hd : ev.info.isDir
    case true =>
      obtain ⟨l, hl, hsub⟩ := runWalk_names env root evs s
      refine ⟨l, ?_, ?_⟩
      · simpa only [runWalk, archiveDirVisit, hd, if_true] using hl
      · have : (ev :: evs).filterMap (relNameOf root) = evs.filterMap (relNameOf root) := by
          simp [List.filterMap_cons, relNameOf, hd]
        rw [this]
        exact hsub
    case false =>
      cases herr : ev.err
      case some e =>
        exact ⟨[], by simp [runWalk, archiveDirVisit, hd, herr], List.nil_sublist _⟩
      case none =>
        cases hrel : relPath root ev.path
        case none =>
          exact ⟨[], by simp [runWalk, archiveDirVisit, hd, herr, hrel], List.nil_sublist _⟩
        case some relname =>
          have hfm : (ev :: evs).filterMap (relNameOf root) =
              relname :: evs.filterMap (relNameOf root) := by
            simp [List.filterMap_cons, relNameOf, hd, hrel]
          cases hh : env.headerErr ev.path
          case some e =>
            exact ⟨[], by simp [runWalk, archiveDirVisit, hd, herr, hrel, hh],
              List.nil_sublist _⟩
          case none =>
            cases hcr : env.createEntryErr relname
            case some e =>
              exact ⟨[], by simp [runWalk, archiveDirVisit, hd, herr, hrel, hh, hcr],
                List.nil_sublist _⟩
            case none =>
              cases hrd : env.readRes ev.path
              case error e =>
                refine ⟨[relname], ?_, ?_⟩
                · simp [runWalk, archiveDirVisit, hd, herr, hrel, hh, hcr, hrd,
                    ZipState.createEntry]
                · rw [hfm]
                  exact List.cons_sublist_cons.mpr (List.nil_sublist _)
              case ok content =>
                cases hw : env.writeEntryErr relname
                case some e =>
                  refine ⟨[relname], ?_, ?_⟩
                  · simp [runWalk, archiveDirVisit, hd, herr, hrel, hh, hcr, hrd, hw,
                      ZipState.createEntry]
                  · rw [hfm]
                    exact List.cons_sublist_cons.mpr (List.nil_sublist _)
                case none =>
                  obtain ⟨l, hl, hsub⟩ := runWalk_names env root evs
                    ((s.createEntry relname ev.info.mode ev.info.mtime zipDeflate).writeLast content)
                  refine ⟨relname :: l, ?_, ?_⟩
                  · simp only [runWalk, archiveDirVisit, hd, herr, hrel, hh, hcr, hrd, hw,
                      Bool.false_eq_true, if_false]
                    rw [hl]
                    simp only [ZipState.writeLast, ZipState.createEntry, appendToLast_map_name]
                    simp [List.append_assoc]
                  · rw [hfm]
                    exact List.cons_sublist_cons.mpr hsub

theorem relNames_nodup (root : String) :
    ∀ evs : List WalkEvent,
      ((evs.map WalkEvent.path).Nodup) →
      (∀ ev ∈ evs, ev.info.isDir = false → (root.data ++ ['/']) <+: ev.path.data) →
      (evs.filterMap (relNameOf root)).Nodup
  | [], _, _ => by simp
  | ev :: evs, hnd, hpre => by
    simp only [List.map_cons, List.nodup_cons] at hnd
    have ih := relNames_nodup root evs hnd.2
      (fun e he h => hpre e (List.mem_cons_of_mem _ he) h)
    cases hd : ev.info.isDir
    case true =>
      have : (ev :: evs).filterMap (relNameOf root) = evs.filterMap (relNameOf root) := by
        simp [List.filterMap_cons, relNameOf, hd]
      rw [this]
      exact ih
    case false =>
      have hprev := hpre ev (List.mem_cons_self ev evs) hd
      have hrel : relNameOf root ev = some (mkRel root ev.path) := by
        simp [relNameOf, hd, relPath_of_under hprev]
      have : (ev :: evs).filterMap (relNameOf root) =
          mkRel root ev.path :: evs.filterMap (relNameOf root) := by
        simp [List.filterMap_cons, hrel]
      rw [this, List.nodup_cons]
      refine ⟨?_, ih⟩
      intro hmem
      obtain ⟨ev', hev', hfev'⟩ := List.mem_filterMap.mp hmem
      have hd' : ev'.info.isDir = false := by
        by_contra hh
        simp only [relNameOf] at hfev'
        rw [if_pos (by revert hh; cases ev'.info.isDir <;> simp)] at hfev'
        cases hfev'
      have hprev' := hpre ev' (List.mem_cons_of_mem _ hev') hd'
      have : relNameOf root ev' = some (mkRel root ev'.path) := by
        simp [relNameOf, hd', relPath_of_under hprev']
      rw [this] at hfev'
      have hpath : ev'.path = ev.path :=
        mkRel_inj hprev' hprev (Option.some.inj hfev')
      exact hnd.1 (List.mem_map.mpr ⟨ev', hev', hpath⟩)

theorem archiveDirVisit_setCloseErrs (env : Env) (cw cf : Option Err) (root : String)
    (s : ZipState) (ev : WalkEvent) :
    archiveDirVisit (setCloseErrs env cw cf) root s ev = archiveDirVisit env root s ev := rfl

theorem runWalk_setCloseErrs (env : Env) (cw cf : Option Err) (root : String) :
    ∀ (evs : List WalkEvent) (s : ZipState),
      runWalk (setCloseErrs env cw cf) root evs s = runWalk env root evs s
  | [], _ => rfl
  | ev :: evs, s => by
    have ih := runWalk_setCloseErrs env cw cf root evs
    simp only [runWalk, archiveDirVisit_setCloseErrs, ih]

theorem writeAll_setCloseErrs (env : Env) (cw cf : Option Err)
    (m : List (String × List Nat)) :
    ∀ (ks : List String) (s : ZipState),
      writeAll (setCloseErrs env cw cf) m ks s = writeAll env m ks s
  | [], _ => rfl
  | k :: ks, s => by
    have ih := writeAll_setCloseErrs env cw cf m ks
    have hc : (setCloseErrs env cw cf).createEntryErr = env.createEntryErr := rfl
    have hw : (setCloseErrs env cw cf).writeEntryErr = env.writeEntryErr := rfl
    simp only [writeAll, hc, hw, ih]

/-- Claim C1: for every mapping (with the distinct keys a Go map guarantees),
`ArchiveMultiple` writes its entries into the container strictly in ascending
lexicographic order of entry name: on every execution path the entry names
are strictly increasing, and on success the entries are exactly the mapping's
pairs in sorted key order. -/
theorem claim_C1 (env : Env) (m : List (String × List Nat))
    (hnd : (m.map Prod.fst).Nodup) :
    List.Sorted strLtP (((zipArchiver.ArchiveMultiple env m).2.entries).map Entry.name) ∧
    ((zipArchiver.ArchiveMultiple env m).1 = none →
      (zipArchiver.ArchiveMultiple env m).2.entries =
        (sortStrings (m.map Prod.fst)).map fun k => ⟨k, lookupContent m k, 0, 0, zipDeflate⟩) := by
  have hnds : (sortStrings (m.map Prod.fst)).Nodup := ((sortStrings_perm _).nodup_iff).mpr hnd
  have hsorted : List.Sorted strLtP (sortStrings (m.map Prod.fst)) :=
    sorted_strLtP (sortStrings_sorted _) hnds
  cases ho : env.openErr
  case some e =>
    simp [zipArchiver.ArchiveMultiple, zipArchiver.open, ho, ZipState.initial]
  case none =>
    rcases hw : writeAll env m (sortStrings (m.map Prod.fst)) ZipState.opened with ⟨r, s'⟩
    obtain ⟨l, hl, hsub⟩ := writeAll_names env m (sortStrings (m.map Prod.fst)) ZipState.opened
    rw [hw] at hl
    simp only [zipArchiver.ArchiveMultiple, zipArchiver.open, ho, hw, close_entries]
    constructor
    · rw [hl]
      simpa [ZipState.opened] using List.Pairwise.sublist hsub hsorted
    · intro hok
      cases r
      case some e => simp at hok
      case none =>
        rw [writeAll_ok env m _ _ _ hw]
        simp [ZipState.opened]

/-- Witness for C1 at the spec's concrete scenario: the mapping
`{"b.txt": "2", "a.txt": "1"}` yields entry `a.txt` (content `"1"`) before
`b.txt` (content `"2"`), and the written names are strictly ascending. -/
theorem claim_C1_witness :
    (demoMap.map Prod.fst).Nodup ∧
    (zipArchiver.ArchiveMultiple envPlain demoMap).2.entries =
      [⟨"a.txt", [49], 0, 0, zipDeflate⟩, ⟨"b.txt", [50], 0, 0, zipDeflate⟩] ∧
    List.Sorted strLtP (((zipArchiver.ArchiveMultiple envPlain demoMap).2.entries).map Entry.name) := by
  refine ⟨by decide, ?_, (claim_C1 envPlain demoMap (by decide)).1⟩
  exact ((claim_C1 envPlain demoMap (by decide)).2 (by decide)).trans (by decide)

/-- Claim C2: `ArchiveMultiple` is deterministic in the mapping: two
invocations with the same mapping, however its insertion order differs,
produce the identical result (same error, same entry sequence). -/
theorem claim_C2 (env : Env) (m₁ m₂ : List (String × List Nat)) (hperm : m₁.Perm m₂)
    (hnd : (m₁.map Prod.fst).Nodup) :
    zipArchiver.ArchiveMultiple env m₁ = zipArchiver.ArchiveMultiple env m₂ := by
  have hkeys : sortStrings (m₁.map Prod.fst) = sortStrings (m₂.map Prod.fst) :=
    List.eq_of_perm_of_sorted
      ((sortStrings_perm _).trans ((hperm.map Prod.fst).trans (sortStrings_perm _).symm))
      (sortStrings_sorted _) (sortStrings_sorted _)
  have hlk : ∀ k, lookupContent m₁ k = lookupContent m₂ k := fun k =>
    lookupContent_perm k hperm hnd
  unfold zipArchiver.ArchiveMultiple
  simp only [hkeys, writeAll_congr env hlk]

/-- Witness for C2: the demonstration mapping in its two insertion orders
produces identical archive output. -/
theorem claim_C2_witness :
    demoMap.Perm demoMapRev ∧ (demoMap.map Prod.fst).Nodup ∧
    zipArchiver.ArchiveMultiple envPlain demoMap =
      zipArchiver.ArchiveMultiple envPlain demoMapRev :=
  ⟨List.Perm.swap _ _ _, by decide,
   claim_C2 envPlain demoMap demoMapRev (List.Perm.swap _ _ _) (by decide)⟩

/-- Counterexample to C3 as stated: in `envDirWalkErr` the walk reports a
traversal error for the visited path `d/sub`, yet `ArchiveDir` returns
success — the error is silently dropped, because the callback tests
`info.IsDir()` before it tests the incoming walk error. -/
theorem claim_C3_counterexample :
    (⟨"d/sub", ⟨"sub", true, 493, 0⟩, some ⟨"permission denied"⟩⟩ : WalkEvent) ∈
        envDirWalkErr.walkEvents "d" ∧
    (zipArchiver.ArchiveDir envDirWalkErr "d").1 = none := by
  constructor
  · decide
  · decide

/-- Claim C3 (amended): during `ArchiveDir`, any per-file error for a
non-directory entry — the incoming walk error, a relativization failure, a
header-construction failure, an entry-creation failure, a read failure or an
in-container write failure — makes the walk callback produce an error (each
kind's exact error is given below), the walk aborts immediately at the first
callback error and returns it, and `ArchiveDir` returns that error to the
caller; but a traversal error reported together with a directory info is
silently dropped, because the `IsDir` check precedes the error check. -/
theorem claim_C3 :
    (∀ (env : Env) (root : String) (s s' : ZipState) (ev : WalkEvent)
       (evs : List WalkEvent) (e : Err),
       archiveDirVisit env root s ev = (some e, s') →
       runWalk env root (ev :: evs) s = (some e, s')) ∧
    (∀ (env : Env) (root : String) (s : ZipState) (ev : WalkEvent) (e : Err),
       ev.info.isDir = false → ev.err = some e →
       archiveDirVisit env root s ev = (some e, s)) ∧
    (∀ (env : Env) (root : String) (s : ZipState) (ev : WalkEvent),
       ev.info.isDir = false → ev.err = none → relPath root ev.path = none →
       archiveDirVisit env root s ev = (some ⟨"error relativizing file for archival"⟩, s)) ∧
    (∀ (env : Env) (root : String) (s : ZipState) (ev : WalkEvent)
       (relname : String) (e : Err),
       ev.info.isDir = false → ev.err = none → relPath root ev.path = some relname →
       env.headerErr ev.path = some e →
       archiveDirVisit env root s ev =
         (some ⟨"error creating file header: " ++ e.msg⟩, s)) ∧
    (∀ (env : Env) (root : String) (s : ZipState) (ev : WalkEvent)
       (relname : String) (e : Err),
       ev.info.isDir = false → ev.err = none → relPath root ev.path = some relname →
       env.headerErr ev.path = none → env.createEntryErr relname = some e →
       archiveDirVisit env root s ev =
         (some ⟨"error creating file inside archive: " ++ e.msg⟩, s)) ∧
    (∀ (env : Env) (root : String) (s : ZipState) (ev : WalkEvent)
       (relname : String) (e : Err),
       ev.info.isDir = false → ev.err = none → relPath root ev.path = some relname →
       env.headerErr ev.path = none → env.createEntryErr relname = none →
       env.readRes ev.path = .error e →
       archiveDirVisit env root s ev =
         (some ⟨"error reading file for archival"⟩,
          s.createEntry relname ev.info.mode ev.info.mtime zipDeflate)) ∧
    (∀ (env : Env) (root : String) (s : ZipState) (ev : WalkEvent)
       (relname : String) (c : List Nat) (e : Err),
       ev.info.isDir = false → ev.err = none → relPath root ev.path = some relname →
       env.headerErr ev.path = none → env.createEntryErr relname = none →
       env.readRes ev.path = .ok c → env.writeEntryErr relname = some e →
       archiveDirVisit env root s ev =
         (some e, s.createEntry relname ev.info.mode ev.info.mtime zipDeflate)) ∧
    (∀ (env : Env) (root : String) (s : ZipState) (ev : WalkEvent),
       ev.info.isDir = true → archiveDirVisit env root s ev = (none, s)) ∧
    (∀ (env : Env) (root : String) (fi : FileInfo),
       env.statRes root = some fi → fi.isDir = true → env.openErr = none →
       (zipArchiver.ArchiveDir env root).1 =
         (runWalk env root (env.walkEvents root) ZipState.opened).1) := by
  refine ⟨?_, ?_, ?_, ?_, ?_, ?_, ?_, ?_, ?_⟩
  · intro env root s s' ev evs e h
    simp only [runWalk, h]
  · intro env root s ev e hd herr
    simp [archiveDirVisit, hd, herr]
  · intro env root s ev hd herr hrel
    simp [archiveDirVisit, hd, herr, hrel]
  · intro env root s ev relname e hd herr hrel hh
    simp [archiveDirVisit, hd, herr, hrel, hh]
  · intro env root s ev relname e hd herr hrel hh hcr
    simp [archiveDirVisit, hd, herr, hrel, hh, hcr]
  · intro env root s ev relname e hd herr hrel hh hcr hrd
    simp [archiveDirVisit, hd, herr, hrel, hh, hcr, hrd]
  · intro env root s ev relname c e hd herr hrel hh hcr hrd hw
    simp [archiveDirVisit, hd, herr, hrel, hh, hcr, hrd, hw]
  · intro env root s ev hd
    simp [archiveDirVisit, hd]
  · intro env root fi hstat hdir hopen
    rcases hw : runWalk env root (env.walkEvents root) ZipState.opened with ⟨r, s'⟩
    simp [zipArchiver.ArchiveDir, assertValidDir, hstat, hdir, zipArchiver.open, hopen, hw]

/-- Witness for the amended C3: a walk error on a non-directory event is the
error the walk returns, immediately; and a read failure on a non-directory
event makes the callback produce the wrapped read error. -/
theorem claim_C3_witness :
    archiveDirVisit envPlain "d" ZipState.opened
        ⟨"d/x.txt", ⟨"x.txt", false, 420, 0⟩, some ⟨"walk failure"⟩⟩ =
      (some ⟨"walk failure"⟩, ZipState.opened) ∧
    runWalk envPlain "d" [⟨"d/x.txt", ⟨"x.txt", false, 420, 0⟩, some ⟨"walk failure"⟩⟩]
        ZipState.opened = (some ⟨"walk failure"⟩, ZipState.opened) ∧
    archiveDirVisit envPlain "d" ZipState.opened
        ⟨"d/x.txt", ⟨"x.txt", false, 420, 0⟩, none⟩ =
      (some ⟨"error reading file for archival"⟩,
       ZipState.opened.createEntry "x.txt" 420 0 zipDeflate) := by
  have h1 := claim_C3.2.1 envPlain "d" ZipState.opened
    ⟨"d/x.txt", ⟨"x.txt", false, 420, 0⟩, some ⟨"walk failure"⟩⟩ ⟨"walk failure"⟩ rfl rfl
  have h2 := claim_C3.2.2.2.2.2.1 envPlain "d" ZipState.opened
    ⟨"d/x.txt", ⟨"x.txt", false, 420, 0⟩, none⟩ "x.txt" ⟨"file does not exist"⟩
    rfl rfl (by decide) rfl rfl rfl
  exact ⟨h1, claim_C3.1 envPlain "d" ZipState.opened ZipState.opened _ [] _ h1, h2⟩

/-- Claim C4: for every byte content (possibly empty) and non-empty entry
name, a successful `ArchiveContent` produces exactly one entry, named as
given, whose bytes equal the input exactly. -/
theorem claim_C4 (env : Env) (content : List Nat) (infilename : String)
    (_hname : infilename ≠ "")
    (hok : (zipArchiver.ArchiveContent env content infilename).1 = none) :
    (zipArchiver.ArchiveContent env content infilename).2.entries =
      [⟨infilename, content, 0, 0, zipDeflate⟩] := by
  cases ho : env.openErr
  case some e => simp [zipArchiver.ArchiveContent, zipArchiver.open, ho] at hok
  case none =>
    cases hc : env.createEntryErr infilename
    case some e => simp [zipArchiver.ArchiveContent, zipArchiver.open, ho, hc] at hok
    case none =>
      cases hw : env.writeEntryErr infilename
      case some e => simp [zipArchiver.ArchiveContent, zipArchiver.open, ho, hc, hw] at hok
      case none =>
        simp only [zipArchiver.ArchiveContent, zipArchiver.open, ho, hc, hw, close_entries]
        rw [createEntry_writeLast_entries]
        rfl

/-- Witness for C4 at empty-free concrete data: archiving bytes `[1, 2]`
under the name `data.bin` succeeds with exactly that one entry. -/
theorem claim_C4_witness :
    ("data.bin" : String) ≠ "" ∧
    (zipArchiver.ArchiveContent envPlain [1, 2] "data.bin").1 = none ∧
    (zipArchiver.ArchiveContent envPlain [1, 2] "data.bin").2.entries =
      [⟨"data.bin", [1, 2], 0, 0, zipDeflate⟩] :=
  ⟨by decide, by decide, claim_C4 envPlain [1, 2] "data.bin" (by decide) (by decide)⟩

/-- Claim C5: a successful `ArchiveFile` on an existing regular file produces
exactly one entry whose name is the file's base name, whose bytes are the
file's content, whose mode and mtime come from the file's stat, and whose
method is deflate. -/
theorem claim_C5 (env : Env) (p : String) (fi : FileInfo) (content : List Nat)
    (hstat : env.statRes p = some fi) (hdir : fi.isDir = false)
    (hbase : fi.name = baseName p) (hread : env.readRes p = .ok content)
    (hok : (zipArchiver.ArchiveFile env p).1 = none) :
    (zipArchiver.ArchiveFile env p).2.entries =
      [⟨baseName p, content, fi.mode, fi.mtime, zipDeflate⟩] := by
  cases ho : env.openErr
  case some e =>
    simp [zipArchiver.ArchiveFile, assertValidFile, hstat, hdir, hread,
      zipArchiver.open, ho] at hok
  case none =>
    cases hh : env.headerErr p
    case some e =>
      simp [zipArchiver.ArchiveFile, assertValidFile, hstat, hdir, hread,
        zipArchiver.open, ho, hh] at hok
    case none =>
      cases hc : env.createEntryErr fi.name
      case some e =>
        simp [zipArchiver.ArchiveFile, assertValidFile, hstat, hdir, hread,
          zipArchiver.open, ho, hh, hc] at hok
      case none =>
        cases hw : env.writeEntryErr fi.name
        case some e =>
          simp [zipArchiver.ArchiveFile, assertValidFile, hstat, hdir, hread,
            zipArchiver.open, ho, hh, hc, hw] at hok
        case none =>
          simp only [zipArchiver.ArchiveFile, assertValidFile, hstat, hdir,
            Bool.false_eq_true, if_false, hread, zipArchiver.open, ho, hh, hc, hw,
            close_entries]
          rw [createEntry_writeLast_entries, hbase]
          rfl

/-- Witness for C5: archiving the regular file `d/f.txt` of `envOneFile`
yields the single entry `f.txt` with the file's bytes, stat metadata and the
deflate method. -/
theorem claim_C5_witness :
    envOneFile.statRes "d/f.txt" = some ⟨"f.txt", false, 420, 100⟩ ∧
    (zipArchiver.ArchiveFile envOneFile "d/f.txt").1 = none ∧
    (zipArchiver.ArchiveFile envOneFile "d/f.txt").2.entries =
      [⟨baseName "d/f.txt", [104, 105], 420, 100, zipDeflate⟩] :=
  ⟨rfl, by decide,
   claim_C5 envOneFile "d/f.txt" ⟨"f.txt", false, 420, 100⟩ [104, 105]
     rfl rfl (by decide) rfl (by decide)⟩

/-- Claim C6: a successful `ArchiveDir` over a directory tree produces
exactly one entry per regular file under the root (directory events produce
no entries, so an empty subtree contributes nothing), each named by its path
relative to the root and holding the file's bytes. -/
theorem claim_C6 (env : Env) (root : String) (fi : FileInfo)
    (hstat : env.statRes root = some fi) (hdir : fi.isDir = true)
    (hopen : env.openErr = none)
    (hgood : ∀ ev ∈ env.walkEvents root, goodFileEvent env root ev) :
    (zipArchiver.ArchiveDir env root).1 = none ∧
    (zipArchiver.ArchiveDir env root).2.entries =
      dirEntriesOf env root (env.walkEvents root) := by
  have hw := runWalk_good env root (env.walkEvents root) ZipState.opened hgood
  simp only [zipArchiver.ArchiveDir, assertValidDir, hstat, hdir, if_true,
    zipArchiver.open, hopen, hw, close_entries]
  constructor
  · trivial
  · simp [ZipState.opened]

/-- Witness for C6 at the spec's tree scenario: the tree `d` with regular
files `d/sub/x.txt` and `d/y.txt` (and the empty-producing directory events
`d` and `d/sub`) yields exactly the entries `sub/x.txt` and `y.txt`. -/
theorem claim_C6_witness :
    envTree.statRes "d" = some ⟨"d", true, 493, 0⟩ ∧
    (∀ ev ∈ envTree.walkEvents "d", goodFileEvent envTree "d" ev) ∧
    (zipArchiver.ArchiveDir envTree "d").1 = none ∧
    (zipArchiver.ArchiveDir envTree "d").2.entries =
      [⟨"sub/x.txt", [120], 420, 5, zipDeflate⟩, ⟨"y.txt", [121], 420, 6, zipDeflate⟩] := by
  have h := claim_C6 envTree "d" ⟨"d", true, 493, 0⟩ rfl rfl rfl (by decide)
  exact ⟨rfl, by decide, h.1, h.2.trans (by decide)⟩

/-- Claim C7: a path that does not resolve to an existing regular file
(absent / stat error, or a directory) makes `ArchiveFile` return a
validation error before the target is opened, leaving the target location
untouched; likewise `ArchiveDir` on a root that is not an existing
directory. -/
theorem claim_C7 :
    (∀ (env : Env) (p : String),
       (env.statRes p = none ∨ ∃ fi, env.statRes p = some fi ∧ fi.isDir = true) →
       (zipArchiver.ArchiveFile env p).1.isSome = true ∧
       (zipArchiver.ArchiveFile env p).2.created = false) ∧
    (∀ (env : Env) (p : String),
       (env.statRes p = none ∨ ∃ fi, env.statRes p = some fi ∧ fi.isDir = false) →
       (zipArchiver.ArchiveDir env p).1.isSome = true ∧
       (zipArchiver.ArchiveDir env p).2.created = false) := by
  constructor
  · intro env p h
    rcases h with h | ⟨fi, hfi, hd⟩
    · simp [zipArchiver.ArchiveFile, assertValidFile, h, ZipState.initial]
    · simp [zipArchiver.ArchiveFile, assertValidFile, hfi, hd, ZipState.initial]
  · intro env p h
    rcases h with h | ⟨fi, hfi, hd⟩
    · simp [zipArchiver.ArchiveDir, assertValidDir, h, ZipState.initial]
    · simp [zipArchiver.ArchiveDir, assertValidDir, hfi, hd, ZipState.initial]

/-- Witness for C7: archiving the absent path `missing` fails with a
validation error and the target is never created. -/
theorem claim_C7_witness :
    (envPlain.statRes "missing" = none ∨
      ∃ fi, envPlain.statRes "missing" = some fi ∧ fi.isDir = true) ∧
    (zipArchiver.ArchiveFile envPlain "missing").1.isSome = true ∧
    (zipArchiver.ArchiveFile envPlain "missing").2.created = false := by
  have h := claim_C7.1 envPlain "missing" (Or.inl rfl)
  exact ⟨Or.inl rfl, h.1, h.2⟩

/-- Claim C8: for every operation, the result is entirely independent of the
close-time collaborator errors (they are swallowed, never surfaced), and
whenever the container was opened the close/cleanup step runs exactly once,
on every exit path. -/
theorem claim_C8 :
    (∀ (env : Env) (c : List Nat) (n : String) (cw cf : Option Err),
       zipArchiver.ArchiveContent (setCloseErrs env cw cf) c n =
         zipArchiver.ArchiveContent env c n) ∧
    (∀ (env : Env) (p : String) (cw cf : Option Err),
       zipArchiver.ArchiveFile (setCloseErrs env cw cf) p = zipArchiver.ArchiveFile env p) ∧
    (∀ (env : Env) (d : String) (cw cf : Option Err),
       zipArchiver.ArchiveDir (setCloseErrs env cw cf) d = zipArchiver.ArchiveDir env d) ∧
    (∀ (env : Env) (m : List (String × List Nat)) (cw cf : Option Err),
       zipArchiver.ArchiveMultiple (setCloseErrs env cw cf) m =
         zipArchiver.ArchiveMultiple env m) ∧
    (∀ (env : Env) (c : List Nat) (n : String),
       (zipArchiver.ArchiveContent env c n).2.created = true →
       (zipArchiver.ArchiveContent env c n).2.closeRuns = 1) ∧
    (∀ (env : Env) (p : String),
       (zipArchiver.ArchiveFile env p).2.created = true →
       (zipArchiver.ArchiveFile env p).2.closeRuns = 1) ∧
    (∀ (env : Env) (d : String),
       (zipArchiver.ArchiveDir env d).2.created = true →
       (zipArchiver.ArchiveDir env d).2.closeRuns = 1) ∧
    (∀ (env : Env) (m : List (String × List Nat)),
       (zipArchiver.ArchiveMultiple env m).2.created = true →
       (zipArchiver.ArchiveMultiple env m).2.closeRuns = 1) := by
  refine ⟨?_, ?_, ?_, ?_, ?_, ?_, ?_, ?_⟩
  · intro env c n cw cf; cases env; rfl
  · intro env p cw cf; cases env; rfl
  · intro env d cw cf
    have h1 : assertValidDir (setCloseErrs env cw cf) d = assertValidDir env d := rfl
    have h2 : zipArchiver.open (setCloseErrs env cw cf) = zipArchiver.open env := rfl
    have h3 : (setCloseErrs env cw cf).walkEvents = env.walkEvents := rfl
    have h4 : ∀ s, zipArchiver.close (setCloseErrs env cw cf) s = zipArchiver.close env s :=
      fun _ => rfl
    unfold zipArchiver.ArchiveDir
    simp only [h1, h2, h3, h4, runWalk_setCloseErrs env cw cf d]
  · intro env m cw cf
    have h2 : zipArchiver.open (setCloseErrs env cw cf) = zipArchiver.open env := rfl
    have h4 : ∀ s, zipArchiver.close (setCloseErrs env cw cf) s = zipArchiver.close env s :=
      fun _ => rfl
    unfold zipArchiver.ArchiveMultiple
    simp only [h2, h4, writeAll_setCloseErrs env cw cf m]
  · intro env c n h
    cases ho : env.openErr
    case some e =>
      simp [zipArchiver.ArchiveContent, zipArchiver.open, ho, ZipState.initial] at h
    case none =>
      cases hc : env.createEntryErr n
      case some e =>
        simp [zipArchiver.ArchiveContent, zipArchiver.open, ho, hc, ZipState.opened]
      case none =>
        cases hw : env.writeEntryErr n
        case some e =>
          simp [zipArchiver.ArchiveContent, zipArchiver.open, ho, hc, hw, ZipState.opened]
        case none =>
          simp [zipArchiver.ArchiveContent, zipArchiver.open, ho, hc, hw, ZipState.opened]
  · intro env p h
    cases hv : assertValidFile env p
    case error e => simp [zipArchiver.ArchiveFile, hv, ZipState.initial] at h
    case ok fi =>
      cases hr : env.readRes p
      case error e => simp [zipArchiver.ArchiveFile, hv, hr, ZipState.initial] at h
      case ok content =>
        cases ho : env.openErr
        case some e =>
          simp [zipArchiver.ArchiveFile, hv, hr, zipArchiver.open, ho, ZipState.initial] at h
        case none =>
          cases hh : env.headerErr p
          case some e =>
            simp [zipArchiver.ArchiveFile, hv, hr, zipArchiver.open, ho, hh, ZipState.opened]
          case none =>
            cases hc : env.createEntryErr fi.name
            case some e =>
              simp [zipArchiver.ArchiveFile, hv, hr, zipArchiver.open, ho, hh, hc,
                ZipState.opened]
            case none =>
              cases hw : env.writeEntryErr fi.name
              case some e =>
                simp [zipArchiver.ArchiveFile, hv, hr, zipArchiver.open, ho, hh, hc, hw,
                  ZipState.opened]
              case none =>
                simp [zipArchiver.ArchiveFile, hv, hr, zipArchiver.open, ho, hh, hc, hw,
                  ZipState.opened]
  · intro env d h
    cases hv : assertValidDir env d
    case error e => simp [zipArchiver.ArchiveDir, hv, ZipState.initial] at h
    case ok fi =>
      cases ho : env.openErr
      case some e =>
        simp [zipArchiver.ArchiveDir, hv, zipArchiver.open, ho, ZipState.initial] at h
      case none =>
        rcases hw : runWalk env d (env.walkEvents d) ZipState.opened with ⟨r, s'⟩
        have hinv := runWalk_created_closeRuns env d (env.walkEvents d) ZipState.opened
        rw [hw] at hinv
        have hcr : s'.closeRuns = 0 := by simpa [ZipState.opened] using hinv.2
        simp [zipArchiver.ArchiveDir, hv, zipArchiver.open, ho, hw, close_closeRuns, hcr]
  · intro env m h
    cases ho : env.openErr
    case some e =>
      simp [zipArchiver.ArchiveMultiple, zipArchiver.open, ho, ZipState.initial] at h
    case none =>
      rcases hw : writeAll env m (sortStrings (m.map Prod.fst)) ZipState.opened with ⟨r, s'⟩
      have hinv := writeAll_created_closeRuns env m (sortStrings (m.map Prod.fst)) ZipState.opened
      rw [hw] at hinv
      have hcr : s'.closeRuns = 0 := by simpa [ZipState.opened] using hinv.2
      simp [zipArchiver.ArchiveMultiple, zipArchiver.open, ho, hw, close_closeRuns, hcr]

/-- Witness for C8: in a run that opened the container, close runs exactly
once, and injecting close-time errors changes nothing about the result. -/
theorem claim_C8_witness :
    (zipArchiver.ArchiveContent envPlain [] "f").2.created = true ∧
    (zipArchiver.ArchiveContent envPlain [] "f").2.closeRuns = 1 ∧
    zipArchiver.ArchiveContent (setCloseErrs envPlain (some ⟨"close fail"⟩)
      (some ⟨"close fail"⟩)) [] "f" = zipArchiver.ArchiveContent envPlain [] "f" :=
  ⟨by decide, claim_C8.2.2.2.2.1 envPlain [] "f" (by decide),
   claim_C8.1 envPlain [] "f" (some ⟨"close fail"⟩) (some ⟨"close fail"⟩)⟩

/-- Claim C9: within one archiving call of any of the four operations, the
entry names handed to the container are pairwise distinct — on every
execution path, not only on success. -/
theorem claim_C9 :
    (∀ (env : Env) (c : List Nat) (n : String),
       (((zipArchiver.ArchiveContent env c n).2.entries).map Entry.name).Nodup) ∧
    (∀ (env : Env) (p : String),
       (((zipArchiver.ArchiveFile env p).2.entries).map Entry.name).Nodup) ∧
    (∀ (env : Env) (m : List (String × List Nat)), (m.map Prod.fst).Nodup →
       (((zipArchiver.ArchiveMultiple env m).2.entries).map Entry.name).Nodup) ∧
    (∀ (env : Env) (root : String),
       ((env.walkEvents root).map WalkEvent.path).Nodup →
       (∀ ev ∈ env.walkEvents root, ev.info.isDir = false →
          (root.data ++ ['/']) <+: ev.path.data) →
       (((zipArchiver.ArchiveDir env root).2.entries).map Entry.name).Nodup) := by
  refine ⟨?_, ?_, ?_, ?_⟩
  · intro env c n
    cases ho : env.openErr
    case some e => simp [zipArchiver.ArchiveContent, zipArchiver.open, ho, ZipState.initial]
    case none =>
      cases hc : env.createEntryErr n
      case some e =>
        simp [zipArchiver.ArchiveContent, zipArchiver.open, ho, hc, ZipState.opened]
      case none =>
        cases hw : env.writeEntryErr n
        case some e =>
          simp [zipArchiver.ArchiveContent, zipArchiver.open, ho, hc, hw, ZipState.opened,
            ZipState.createEntry]
        case none =>
          simp only [zipArchiver.ArchiveContent, zipArchiver.open, ho, hc, hw, close_entries]
          rw [createEntry_writeLast_entries]
          simp [ZipState.opened]
  · intro env p
    cases hv : assertValidFile env p
    case error e => simp [zipArchiver.ArchiveFile, hv, ZipState.initial]
    case ok fi =>
      cases hr : env.readRes p
      case error e => simp [zipArchiver.ArchiveFile, hv, hr, ZipState.initial]
      case ok content =>
        cases ho : env.openErr
        case some e =>
          simp [zipArchiver.ArchiveFile, hv, hr, zipArchiver.open, ho, ZipState.initial]
        case none =>
          cases hh : env.headerErr p
          case some e =>
            simp [zipArchiver.ArchiveFile, hv, hr, zipArchiver.open, ho, hh, ZipState.opened]
          case none =>
            cases hc : env.createEntryErr fi.name
            case some e =>
              simp [zipArchiver.ArchiveFile, hv, hr, zipArchiver.open, ho, hh, hc,
                ZipState.opened]
            case none =>
              cases hw : env.writeEntryErr fi.name
              case some e =>
                simp [zipArchiver.ArchiveFile, hv, hr, zipArchiver.open, ho, hh, hc, hw,
                  ZipState.opened, ZipState.createEntry]
              case none =>
                simp only [zipArchiver.ArchiveFile, hv, hr, zipArchiver.open, ho, hh, hc, hw,
                  close_entries]
                rw [createEntry_writeLast_entries]
                simp [ZipState.opened]
  · intro env m hnd
    have hnds : (sortStrings (m.map Prod.fst)).Nodup :=
      ((sortStrings_perm _).nodup_iff).mpr hnd
    cases ho : env.openErr
    case some e =>
      simp [zipArchiver.ArchiveMultiple, zipArchiver.open, ho, ZipState.initial]
    case none =>
      rcases hw : writeAll env m (sortStrings (m.map Prod.fst)) ZipState.opened with ⟨r, s'⟩
      obtain ⟨l, hl, hsub⟩ := writeAll_names env m (sortStrings (m.map Prod.fst)) ZipState.opened
      rw [hw] at hl
      simp only [zipArchiver.ArchiveMultiple, zipArchiver.open, ho, hw, close_entries]
      rw [hl]
      simpa [ZipState.opened] using hsub.nodup hnds
  · intro env root hpaths hpre
    cases hv : assertValidDir env root
    case error e => simp [zipArchiver.ArchiveDir, hv, ZipState.initial]
    case ok fi =>
      cases ho : env.openErr
      case some e =>
        simp [zipArchiver.ArchiveDir, hv, zipArchiver.open, ho, ZipState.initial]
      case none =>
        rcases hw : runWalk env root (env.walkEvents root) ZipState.opened with ⟨r, s'⟩
        obtain ⟨l, hl, hsub⟩ := runWalk_names env root (env.walkEvents root) ZipState.opened
        rw [hw] at hl
        simp only [zipArchiver.ArchiveDir, hv, zipArchiver.open, ho, hw, close_entries]
        rw [hl]
        simpa [ZipState.opened] using hsub.nodup (relNames_nodup root _ hpaths hpre)

/-- Witness for C9 on the concrete tree environment: distinct walked paths
give distinct entry names. -/
theorem claim_C9_witness :
    ((envTree.walkEvents "d").map WalkEvent.path).Nodup ∧
    (((zipArchiver.ArchiveDir envTree "d").2.entries).map Entry.name).Nodup :=
  ⟨by decide, claim_C9.2.2.2 envTree "d" (by decide) (by decide)⟩

/-- Claim C10: `ArchiveFile` reads the whole source file before opening the
target, so a post-validation read failure returns that error with the target
location untouched (neither created nor truncated). -/
theorem claim_C10 (env : Env) (p : String) (fi : FileInfo) (e : Err)
    (hstat : env.statRes p = some fi) (hdir : fi.isDir = false)
    (hread : env.readRes p = .error e) :
    zipArchiver.ArchiveFile env p = (some e, ZipState.initial) := by
  simp [zipArchiver.ArchiveFile, assertValidFile, hstat, hdir, hread]

/-- Witness for C10: `d/f.txt` stats as a regular file but fails to read;
the read error comes back and the target was never created. -/
theorem claim_C10_witness :
    envReadFail.statRes "d/f.txt" = some ⟨"f.txt", false, 420, 100⟩ ∧
    envReadFail.readRes "d/f.txt" = .error ⟨"input/output error"⟩ ∧
    zipArchiver.ArchiveFile envReadFail "d/f.txt" =
      (some ⟨"input/output error"⟩, ZipState.initial) ∧
    (zipArchiver.ArchiveFile envReadFail "d/f.txt").2.created = false := by
  have h := claim_C10 envReadFail "d/f.txt" ⟨"f.txt", false, 420, 100⟩
    ⟨"input/output error"⟩ rfl rfl rfl
  exact ⟨rfl, rfl, h, by rw [h]; rfl⟩

end Archive
